import Mathlib

/- Formal verification of the Lufalyze audio-analysis core (loudness-wasm).

   The Rust source is embedded shallowly:
   * `f32` scalar arithmetic is idealized as exact rational arithmetic over `ℚ`;
     decimal literals denote the exact decimal rationals written in the source.
   * the value `f32::NEG_INFINITY` produced by the gating code is modelled by
     `⊥ : WithBot ℚ` (so `⊥ + c = ⊥` and `⊥ > c` is false, matching IEEE
     behaviour of `-inf` for the operations the code performs).
   * transcendental `f32` operations (`log10`, `sqrt`, `sin`, `cos`, `powf`,
     `log2`) have no exact rational counterpart; each embedded function takes
     them as explicit function parameters, so every theorem quantifies over
     them (hypotheses pin down the few concrete values a proof needs).
   * machine-integer wrap-around (`usize` subtraction) is modelled explicitly
     with `% 2^w`.
-/

namespace Lufalyze

/-! ### Constants (loudness-wasm/src/lib.rs, loudness-wasm/src/constants.rs) -/

def RELATIVE_GATE : ℚ := -10
def ABSOLUTE_GATE : ℚ := -70
def MOMENTARY_BLOCK_SIZE : ℕ := 17640
def MOMENTARY_HOP : ℕ := 4410
def SHORT_TERM_BLOCK_SIZE : ℕ := 132300
def SHORT_TERM_HOP : ℕ := 13230

/- K-weighting filter coefficients `K_B = [1.5351249, -2.6916962, 1.1983928]`,
   `K_A = [1.0, -1.6906593, 0.73248076]`. -/
def K_B0 : ℚ := 1.5351249
def K_B1 : ℚ := -2.6916962
def K_B2 : ℚ := 1.1983928
def K_A1 : ℚ := -1.6906593
def K_A2 : ℚ := 0.73248076

/-! ### LoudnessAnalyzer (loudness-wasm/src/lib.rs)

`lg` abstracts `f32::log10`.  Block loudness `L = -0.691 + 10*log10(e + 1e-10)`. -/

def loudnessOf (lg : ℚ → ℚ) (energy : ℚ) : ℚ :=
  -0.691 + 10 * lg (energy + 1e-10)

/-- Per-channel IIR filter state (`x1, x2, y1, y2`) plus the running energy
accumulator shared across channels, as in `calculate_block_energy`. -/
structure KState where
  x1 : ℚ
  x2 : ℚ
  y1 : ℚ
  y2 : ℚ
  energy : ℚ

/-- One sample step of the K-weighting filter:
`filtered = K_B[0]*sample + K_B[1]*x1 + K_B[2]*x2 - K_A[1]*y1 - K_A[2]*y2`,
then shift the taps and accumulate `filtered²`. -/
def kStep (s : KState) (sample : ℚ) : KState :=
  let filtered := K_B0 * sample + K_B1 * s.x1 + K_B2 * s.x2 - K_A1 * s.y1 - K_A2 * s.y2
  { x1 := sample, x2 := s.x1, y1 := filtered, y2 := s.y1,
    energy := s.energy + filtered * filtered }

/-- The inner loop of `calculate_block_energy` for one channel: fresh filter
state, sample index `(start + i) * num_channels + ch`, out-of-range reads are 0. -/
def channelPass (pcm : List ℚ) (numChannels start ch blockSize : ℕ) (energy : ℚ) : ℚ :=
  ((List.range blockSize).foldl
    (fun s i => kStep s (pcm.getD ((start + i) * numChannels + ch) 0))
    { x1 := 0, x2 := 0, y1 := 0, y2 := 0, energy := energy }).energy

/-- `LoudnessAnalyzer::calculate_block_energy`: mean-square K-weighted energy
of one block across all channels. -/
def calculate_block_energy (pcm : List ℚ) (numChannels start blockSize : ℕ) : ℚ :=
  ((List.range numChannels).foldl
      (fun e ch => channelPass pcm numChannels start ch blockSize e) 0)
    / ((blockSize : ℚ) * (numChannels : ℚ))

/-- The `while i + block_size <= samples_per_channel` loop of `process_blocks`,
with explicit fuel (the caller passes fuel `spc + 1`, enough for any `hop ≥ 1`).
A block energy is kept only if its loudness is `≥ ABSOLUTE_GATE`. -/
def process_blocksAux (lg : ℚ → ℚ) (pcm : List ℚ) (numChannels blockSize hop spc : ℕ) :
    ℕ → ℕ → List ℚ
  | 0, _ => []
  | fuel + 1, i =>
    if i + blockSize ≤ spc then
      let energy := calculate_block_energy pcm numChannels i blockSize
      (if ABSOLUTE_GATE ≤ loudnessOf lg energy then [energy] else []) ++
        process_blocksAux lg pcm numChannels blockSize hop spc fuel (i + hop)
    else []

/-- `LoudnessAnalyzer::process_blocks`: absolute-gated block energies. -/
def process_blocks (lg : ℚ → ℚ) (pcm : List ℚ) (numChannels blockSize hop : ℕ) : List ℚ :=
  let spc := pcm.length / numChannels
  process_blocksAux lg pcm numChannels blockSize hop spc (spc + 1) 0

/-- Preliminary loudness: mean of the absolute-gated energies converted to
loudness (`calculate_integrated_loudness`, first stage). -/
def preliminaryLoudness (lg : ℚ → ℚ) (energies : List ℚ) : ℚ :=
  loudnessOf lg (energies.sum / (energies.length : ℚ))

/-- `relative_threshold = preliminary_loudness + RELATIVE_GATE`. -/
def relativeThreshold (lg : ℚ → ℚ) (energies : List ℚ) : ℚ :=
  preliminaryLoudness lg energies + RELATIVE_GATE

/-- Second gating stage: keep energies whose loudness is `≥ relative_threshold`. -/
def relGated (lg : ℚ → ℚ) (energies : List ℚ) : List ℚ :=
  energies.filter (fun e => relativeThreshold lg energies ≤ loudnessOf lg e)

/-- `LoudnessAnalyzer::calculate_integrated_loudness`; `⊥` models the
`f32::NEG_INFINITY` returned when a stage is empty. -/
def calculate_integrated_loudness (lg : ℚ → ℚ) (energies : List ℚ) : WithBot ℚ :=
  if energies.isEmpty then ⊥
  else
    let relQ := relGated lg energies
    if relQ.isEmpty then ⊥
    else ((loudnessOf lg (relQ.sum / (relQ.length : ℚ)) : ℚ) : WithBot ℚ)

/-- `LoudnessAnalyzer::calculate_max_loudness`: fold of `f32::max` starting
from `NEG_INFINITY` over the block loudness values. -/
def calculate_max_loudness (lg : ℚ → ℚ) (energies : List ℚ) : WithBot ℚ :=
  energies.foldl (fun acc e => max acc ((loudnessOf lg e : ℚ) : WithBot ℚ)) ⊥

/-- Volume-dependent calibration offset applied to integrated loudness in
`analyze` (`-inf > c` is false in IEEE arithmetic, hence the `WithBot` order). -/
def integratedOffset (x : WithBot ℚ) : ℚ :=
  if ((-15 : ℚ) : WithBot ℚ) < x then 0.77
  else if ((-22 : ℚ) : WithBot ℚ) < x then 0.29
  else 1.58

/-- Volume-dependent calibration offset applied to short-term loudness. -/
def shortTermOffset (x : WithBot ℚ) : ℚ :=
  if ((-12 : ℚ) : WithBot ℚ) < x then 0.41
  else if ((-18 : ℚ) : WithBot ℚ) < x then 0.34
  else 2.40

/-- Volume-dependent calibration offset applied to momentary loudness. -/
def momentaryOffset (x : WithBot ℚ) : ℚ :=
  if ((-8 : ℚ) : WithBot ℚ) < x then 0.53
  else if ((-15 : ℚ) : WithBot ℚ) < x then 0.97
  else 1.25

/-- The scalar fields of the result object built by `LoudnessAnalyzer::analyze`. -/
structure AnalyzeResult where
  momentary : WithBot ℚ
  shortTerm : WithBot ℚ
  integrated : WithBot ℚ
  preliminary_loudness : WithBot ℚ
  gate_threshold : WithBot ℚ
  abs_gated_blocks : ℕ

/-- `LoudnessAnalyzer::analyze`. -/
def analyze (lg : ℚ → ℚ) (numChannels : ℕ) (pcm : List ℚ) : AnalyzeResult :=
  let momentaryEnergies := process_blocks lg pcm numChannels MOMENTARY_BLOCK_SIZE MOMENTARY_HOP
  let momentaryMax := calculate_max_loudness lg momentaryEnergies
  let shortTermEnergies := process_blocks lg pcm numChannels SHORT_TERM_BLOCK_SIZE SHORT_TERM_HOP
  let shortTermMax := calculate_max_loudness lg shortTermEnergies
  let integratedLoudness := calculate_integrated_loudness lg momentaryEnergies
  { momentary := momentaryMax + ((momentaryOffset momentaryMax : ℚ) : WithBot ℚ),
    shortTerm := shortTermMax + ((shortTermOffset shortTermMax : ℚ) : WithBot ℚ),
    integrated := integratedLoudness + ((integratedOffset integratedLoudness : ℚ) : WithBot ℚ),
    preliminary_loudness := integratedLoudness,
    gate_threshold := integratedLoudness + ((RELATIVE_GATE : ℚ) : WithBot ℚ),
    abs_gated_blocks := momentaryEnergies.length }

/-! ### Key-profile constants (loudness-wasm/src/constants.rs) -/

def EDMA_MAJOR : List ℚ := [0.194, 0, 0.108, 0, 0.151, 0.114, 0, 0.180, 0, 0.142, 0, 0.111]
def EDMA_MINOR : List ℚ := [0.192, 0, 0.110, 0.162, 0, 0.118, 0, 0.175, 0.142, 0, 0.101, 0]
def KS_MAJOR : List ℚ := [6.35, 2.23, 3.48, 2.33, 4.38, 4.09, 2.52, 5.19, 2.39, 3.66, 2.29, 2.88]
def KS_MINOR : List ℚ := [6.33, 2.68, 3.52, 5.38, 2.60, 3.53, 2.54, 4.75, 3.98, 2.69, 3.34, 3.17]
def TEMPERLEY_MAJOR : List ℚ := [5.0, 2.0, 3.5, 2.0, 4.5, 4.0, 2.0, 4.5, 2.0, 3.5, 1.5, 4.0]
def TEMPERLEY_MINOR : List ℚ := [5.0, 2.0, 3.5, 4.5, 2.0, 4.0, 2.0, 4.5, 3.5, 2.0, 1.5, 4.0]
def SHAATH_MAJOR : List ℚ := [6.6, 2.0, 3.5, 2.3, 4.6, 4.0, 2.5, 5.2, 2.4, 3.7, 2.3, 2.9]
def SHAATH_MINOR : List ℚ := [6.5, 2.7, 3.5, 5.4, 2.6, 3.5, 2.5, 4.7, 4.0, 2.7, 3.4, 3.2]
def HYBRID_MAJOR : List ℚ := [0.251, 0, 0.108, 0, 0.191, 0.108, 0, 0.234, 0, 0.108, 0, 0]
def HYBRID_MINOR : List ℚ := [0.244, 0, 0.108, 0.186, 0, 0.119, 0, 0.230, 0.114, 0, 0, 0]

/-! ### KeyDetector (music/keydetection.rs, duplicated in lib.rs) -/

/-- `calculate_enhanced_correlation`: Pearson correlation of the chroma,
rotated by `root`, against a key profile.  `sq` abstracts `f32::sqrt`; the
result is clamped to `[-1, 1]`, or 0 when the denominator is `≤ 1e-8`. -/
def calculate_enhanced_correlation (sq : ℚ → ℚ) (chroma keyProfile : List ℚ) (root : ℕ) : ℚ :=
  let chromaMean := chroma.sum / (chroma.length : ℚ)
  let profileMean := keyProfile.sum / (keyProfile.length : ℚ)
  let acc := (List.range 12).foldl
    (fun (a : ℚ × ℚ × ℚ) i =>
      let cc := chroma.getD ((i + root) % 12) 0 - chromaMean
      let pc := keyProfile.getD i 0 - profileMean
      (a.1 + cc * pc, a.2.1 + cc * cc, a.2.2 + pc * pc))
    (0, 0, 0)
  let denominator := sq (acc.2.1 * acc.2.2)
  if 1e-8 < denominator then min (max (acc.1 / denominator) (-1)) 1 else 0

/-- `KeyDetector::test_profile_set`: best (root, mode) over the 12 roots,
major tested before minor at each root, strict improvement required; the best
correlation is mapped to a confidence `clamp((corr + 1)/2, 0, 1)`. -/
def test_profile_set (sq : ℚ → ℚ) (chroma majorProfile minorProfile : List ℚ) : ℕ × Bool × ℚ :=
  let best := (List.range 12).foldl
    (fun (b : ℚ × ℕ × Bool) root =>
      let majorCorr := calculate_enhanced_correlation sq chroma majorProfile root
      let b := if b.1 < majorCorr then (majorCorr, root, true) else b
      let minorCorr := calculate_enhanced_correlation sq chroma minorProfile root
      if b.1 < minorCorr then (minorCorr, root, false) else b)
    (-1, 0, true)
  (best.2.1, best.2.2, min (max ((best.1 + 1) / 2) 0) 1)

/-- `KeyDetector::calculate_weighted_consensus`: 24-bin weighted vote
accumulator (major root `r` at bin `r`, minor at `r + 12`); the winning bin is
the arg-max (`max_by` keeps the last maximal element); its share of the total
weighted votes is the consensus confidence. -/
def calculate_weighted_consensus (results : List ((ℕ × Bool × ℚ) × ℚ)) : ℕ × Bool × ℚ :=
  let keyVotes := results.foldl
    (fun (votes : List ℚ) r =>
      let keyIdx := if r.1.2.1 then r.1.1 else r.1.1 + 12
      votes.set keyIdx (votes.getD keyIdx 0 + r.1.2.2 * r.2))
    (List.replicate 24 0)
  let totalWeight := results.foldl (fun t r => t + r.1.2.2 * r.2) 0
  let best := (List.range 24).foldl
    (fun (b : ℕ × ℚ) i => if keyVotes.getD i 0 < b.2 then b else (i, keyVotes.getD i 0))
    (0, keyVotes.getD 0 0)
  let confidence := if 0 < totalWeight then best.2 / totalWeight else 0
  (best.1 % 12, decide (best.1 < 12), confidence)

/-- The pairwise agreement table inside `calculate_profile_agreement`,
exactly as the code's if-chain reads (the `0.6` branch tests only the root
distance, not the modes). -/
def pairAgreement (root1 : ℕ) (major1 : Bool) (root2 : ℕ) (major2 : Bool) : ℚ :=
  if root1 = root2 ∧ major1 = major2 then 1
  else if root1 = root2 then 0.7
  else if (root1 + 3) % 12 = root2 ∨ (root2 + 3) % 12 = root1 then 0.6
  else if (root1 + 7) % 12 = root2 ∨ (root2 + 7) % 12 = root1 then 0.4
  else 0

/-- The index pairs `(i, j)` with `i < j < n` visited by the nested loops of
`calculate_profile_agreement`. -/
def indexPairs (n : ℕ) : List (ℕ × ℕ) :=
  (List.range n).flatMap (fun i => ((List.range n).drop (i + 1)).map (fun j => (i, j)))

/-- `KeyDetector::calculate_profile_agreement`: average pairwise agreement,
each pair weighted by `sqrt(conf1 * conf2)`, floored at `0.3`; returns 1 for
fewer than two results. -/
def calculate_profile_agreement (sq : ℚ → ℚ) (results : List ((ℕ × Bool × ℚ) × ℚ)) : ℚ :=
  if results.length < 2 then 1
  else
    let pairs := indexPairs results.length
    let totalAgreement := (pairs.map (fun p =>
      let r1 := (results.getD p.1 ((0, true, 0), 0)).1
      let r2 := (results.getD p.2 ((0, true, 0), 0)).1
      pairAgreement r1.1 r1.2.1 r2.1 r2.2.1 * sq (r1.2.2 * r2.2.2))).sum
    if 0 < pairs.length then max (totalAgreement / (pairs.length : ℚ)) 0.3 else 1

/-- The five weighted profile-family winners assembled by
`KeyDetector::detect_key`. -/
def profileResults (sq : ℚ → ℚ) (chroma : List ℚ) : List ((ℕ × Bool × ℚ) × ℚ) :=
  [(test_profile_set sq chroma EDMA_MAJOR EDMA_MINOR, 0.35),
   (test_profile_set sq chroma HYBRID_MAJOR HYBRID_MINOR, 0.25),
   (test_profile_set sq chroma KS_MAJOR KS_MINOR, 0.20),
   (test_profile_set sq chroma TEMPERLEY_MAJOR TEMPERLEY_MINOR, 0.15),
   (test_profile_set sq chroma SHAATH_MAJOR SHAATH_MINOR, 0.05)]

/-- `KeyDetector::detect_key`: weighted consensus plus agreement factor,
final confidence `clamp(consensus * agreement, 0.05, 0.95)`. -/
def detect_key (sq : ℚ → ℚ) (chroma : List ℚ) : ℕ × Bool × ℚ :=
  let consensus := calculate_weighted_consensus (profileResults sq chroma)
  let agreementFactor := calculate_profile_agreement sq (profileResults sq chroma)
  (consensus.1, consensus.2.1, min (max (consensus.2.2 * agreementFactor) 0.05) 0.95)

/-- C5 comparison definition, written from the claim's words: identical to
`pairAgreement` except that the relative-major/minor branch additionally
requires opposite modes, as the claim asserts. -/
def pairAgreement_claim (root1 : ℕ) (major1 : Bool) (root2 : ℕ) (major2 : Bool) : ℚ :=
  if root1 = root2 ∧ major1 = major2 then 1
  else if root1 = root2 then 0.7
  else if ((root1 + 3) % 12 = root2 ∨ (root2 + 3) % 12 = root1) ∧ major1 ≠ major2 then 0.6
  else if (root1 + 7) % 12 = root2 ∨ (root2 + 7) % 12 = root1 then 0.4
  else 0

/-- `calculate_profile_agreement` as the claim describes it (using
`pairAgreement_claim`); compared against the code's version. -/
def calculate_profile_agreement_claim (sq : ℚ → ℚ)
    (results : List ((ℕ × Bool × ℚ) × ℚ)) : ℚ :=
  if results.length < 2 then 1
  else
    let pairs := indexPairs results.length
    let totalAgreement := (pairs.map (fun p =>
      let r1 := (results.getD p.1 ((0, true, 0), 0)).1
      let r2 := (results.getD p.2 ((0, true, 0), 0)).1
      pairAgreement_claim r1.1 r1.2.1 r2.1 r2.2.1 * sq (r1.2.2 * r2.2.2))).sum
    if 0 < pairs.length then max (totalAgreement / (pairs.length : ℚ)) 0.3 else 1

/-- The amended pairwise agreement table, phrased by root distance
`d = (root1 - root2) mod 12`: 1 for identical (root, mode); 0.7 for same root,
different mode; 0.6 for roots 3 semitones apart (either direction, modes
irrelevant); 0.4 for roots 7 semitones apart (either direction); else 0. -/
def pairAgreement_amended (root1 : ℕ) (major1 : Bool) (root2 : ℕ) (major2 : Bool) : ℚ :=
  let d := (root1 + 12 - root2) % 12
  if d = 0 ∧ major1 = major2 then 1
  else if d = 0 then 0.7
  else if d = 3 ∨ d = 9 then 0.6
  else if d = 5 ∨ d = 7 then 0.4
  else 0

/-- `calculate_profile_agreement` with the amended pairwise table (what the
code actually computes, phrased by root distance). -/
def calculate_profile_agreement_amended (sq : ℚ → ℚ)
    (results : List ((ℕ × Bool × ℚ) × ℚ)) : ℚ :=
  if results.length < 2 then 1
  else
    let pairs := indexPairs results.length
    let totalAgreement := (pairs.map (fun p =>
      let r1 := (results.getD p.1 ((0, true, 0), 0)).1
      let r2 := (results.getD p.2 ((0, true, 0), 0)).1
      pairAgreement_amended r1.1 r1.2.1 r2.1 r2.2.1 * sq (r1.2.2 * r2.2.2))).sum
    if 0 < pairs.length then max (totalAgreement / (pairs.length : ℚ)) 0.3 else 1

/-! ### Machine-integer wrap-around (usize arithmetic in scale analysis) -/

/-- Wrapping `w`-bit unsigned subtraction (release-mode `usize` semantics). -/
def wrapSub (w a b : ℕ) : ℕ := (a % 2 ^ w + (2 ^ w - b % 2 ^ w)) % 2 ^ w

/-- Wrapping `w`-bit unsigned addition. -/
def wrapAdd (w a b : ℕ) : ℕ := (a + b) % 2 ^ w

/-- The note-interval computation `(i - root + 12) % 12` in
`calculate_scale_fit_corrected`, evaluated over `w`-bit unsigned machine
integers (`i - root` wraps when `i < root`, and `+ 12` may wrap back). -/
def noteIntervalWrap (w i root : ℕ) : ℕ := wrapAdd w (wrapSub w i root) 12 % 12

/-! ### ScaleAnalyzer (music/scale_analysis.rs, duplicated in lib.rs) -/

/-- `NOTE_NAMES` (split in two halves only for presentation). -/
def NOTE_NAMES : List String :=
  ["C", "C#", "D", "D#", "E", "F"] ++ ["F#", "G", "G#", "A", "A#", "B"]

/-- The scale-degree weight table inside `calculate_scale_fit_corrected`. -/
def scaleWeight (noteInterval : ℕ) : ℚ :=
  match noteInterval with
  | 0 => 3.0
  | 4 => 2.0
  | 3 => 2.0
  | 7 => 2.0
  | 2 => 1.5
  | 9 => 1.5
  | 5 => 1.3
  | 10 => 1.3
  | _ => 1.0

/-- `in_scale_energy` accumulated by the `0..12` loop of
`calculate_scale_fit_corrected` (wasm32 `usize` interval arithmetic). -/
def inScaleEnergy (chroma : List ℚ) (pattern : List ℕ) (root : ℕ) : ℚ :=
  (((List.range 12).filter (fun i => decide (noteIntervalWrap 32 i root ∈ pattern))).map
    (fun i => chroma.getD i 0 * scaleWeight (noteIntervalWrap 32 i root))).sum

/-- `pattern_weights` accumulated by the same loop. -/
def patternWeights (pattern : List ℕ) (root : ℕ) : ℚ :=
  (((List.range 12).filter (fun i => decide (noteIntervalWrap 32 i root ∈ pattern))).map
    (fun i => scaleWeight (noteIntervalWrap 32 i root))).sum

/-- `out_scale_energy`: out-of-scale chroma energy at double weight. -/
def outScaleEnergy (chroma : List ℚ) (pattern : List ℕ) (root : ℕ) : ℚ :=
  (((List.range 12).filter (fun i => decide (¬ noteIntervalWrap 32 i root ∈ pattern))).map
    (fun i => chroma.getD i 0 * 2)).sum

/-- `calculate_scale_fit_corrected`: guards return 0; otherwise
`(fit_ratio * penalty).powf(0.8)`, with `powf` modelled by real `rpow`. -/
noncomputable def calculate_scale_fit_corrected
    (chroma : List ℚ) (pattern : List ℕ) (root : ℕ) : ℝ :=
  if patternWeights pattern root = 0 then 0
  else
    let normalizedInScale := inScaleEnergy chroma pattern root / patternWeights pattern root
    let normalizedOutScale := outScaleEnergy chroma pattern root / (12 - (pattern.length : ℚ))
    if normalizedInScale + normalizedOutScale = 0 then 0
    else
      let fitRatio := normalizedInScale / (normalizedInScale + normalizedOutScale)
      let penalty := 1 / (1 + normalizedOutScale * 3)
      ((fitRatio * penalty : ℚ) : ℝ) ^ (0.8 : ℝ)

/-- C4 comparison definition, written from the claim's words: `inScale` is the
scale-degree-weighted in-scale energy normalized by the total pattern weight,
`outScale` is the double-weighted out-of-scale energy normalized by the number
of out-of-scale bins, and the strength is
`(inScale / (inScale + outScale))^0.8 × 1/(1 + outScale·3)` — the 0.8 exponent
applied to the ratio only. -/
noncomputable def scale_fit_claim (chroma : List ℚ) (pattern : List ℕ) (root : ℕ) : ℝ :=
  let inScale := inScaleEnergy chroma pattern root / patternWeights pattern root
  let outBins :=
    ((List.range 12).filter (fun i => decide (¬ noteIntervalWrap 32 i root ∈ pattern))).length
  let outScale := outScaleEnergy chroma pattern root / (outBins : ℚ)
  ((inScale / (inScale + outScale) : ℚ) : ℝ) ^ (0.8 : ℝ) *
    ((1 / (1 + outScale * 3) : ℚ) : ℝ)

/-- The amended C4 strength formula: identical normalizations, but the 0.8
exponent applies to the product `fit_ratio * penalty`, as the code computes. -/
noncomputable def scale_fit_amended (chroma : List ℚ) (pattern : List ℕ) (root : ℕ) : ℝ :=
  let inScale := inScaleEnergy chroma pattern root / patternWeights pattern root
  let outBins :=
    ((List.range 12).filter (fun i => decide (¬ noteIntervalWrap 32 i root ∈ pattern))).length
  let outScale := outScaleEnergy chroma pattern root / (outBins : ℚ)
  ((inScale / (inScale + outScale) * (1 / (1 + outScale * 3)) : ℚ) : ℝ) ^ (0.8 : ℝ)

/-- The nine `common_patterns` entries of `analyze_scales`
(`SCALE_PATTERNS[0,1,2,4,6,7,10,11,12]`). -/
def commonPatterns : List (List ℕ × String) :=
  [([0, 2, 4, 5, 7, 9, 11], "Major"),
   ([0, 2, 3, 5, 7, 8, 10], "Natural Minor"),
   ([0, 2, 3, 5, 7, 8, 11], "Harmonic Minor"),
   ([0, 2, 3, 5, 7, 9, 10], "Dorian"),
   ([0, 2, 4, 6, 7, 9, 11], "Lydian"),
   ([0, 2, 4, 5, 7, 9, 10], "Mixolydian"),
   ([0, 2, 4, 7, 9], "Pentatonic Major"),
   ([0, 3, 5, 7, 10], "Pentatonic Minor"),
   ([0, 3, 5, 6, 7, 10], "Blues")]

/-- `ScaleAnalyzer::analyze_scales`: every pattern at all 12 roots, keep
strengths `> 0.10`, stable-sort descending by strength, return the top 8. -/
noncomputable def analyze_scales (chroma : List ℚ) : List (String × ℝ) :=
  let scaleMatches := commonPatterns.flatMap (fun pn =>
    (List.range 12).filterMap (fun root =>
      let scaleStrength := calculate_scale_fit_corrected chroma pn.1 root
      if (0.10 : ℝ) < scaleStrength then
        some (NOTE_NAMES.getD root "" ++ " " ++ pn.2, scaleStrength)
      else none))
  (scaleMatches.mergeSort (fun a b => decide (b.2 ≤ a.2))).take 8

/-! ### HpcpState (music/chroma.rs, duplicated in lib.rs) -/

/-- Temporal HPCP buffer: frames, running count, readiness flag. -/
structure HpcpState where
  frames : List (List ℚ)
  frame_count : ℕ
  ready : Bool

/-- `HpcpState::new()`. -/
def HpcpState.new : HpcpState := ⟨[], 0, false⟩

/-- `HpcpState::add_frame`: push the frame, bump the count, latch `ready` once
the count reaches 10, and `remove(0)` if the buffer now holds more than 50. -/
def HpcpState.add_frame (st : HpcpState) (hpcpFrame : List ℚ) : HpcpState :=
  let frames := st.frames ++ [hpcpFrame]
  let frameCount := st.frame_count + 1
  let ready := if 10 ≤ frameCount then true else st.ready
  ⟨if 50 < frames.length then frames.tail else frames, frameCount, ready⟩

/-- A fresh `HpcpState` after a sequence of `add_frame` calls. -/
def runFrames (fs : List (List ℚ)) : HpcpState :=
  fs.foldl HpcpState.add_frame HpcpState.new

/-- Per-bin median used by `get_pooled_hpcp` (values sorted ascending; even
length averages the two middle values). -/
def medianQ (values : List ℚ) : ℚ :=
  let v := values.mergeSort (fun a b => decide (a ≤ b))
  if v.length % 2 = 0 then (v.getD (v.length / 2 - 1) 0 + v.getD (v.length / 2) 0) / 2
  else v.getD (v.length / 2) 0

/-- Per-bin mean used by `get_pooled_hpcp`. -/
def meanQ (values : List ℚ) : ℚ := values.sum / (values.length : ℚ)

/-- `HpcpState::get_pooled_hpcp`: all-zero unless ready and non-empty;
per-bin `0.7 * median + 0.3 * mean`, then renormalized only when the sum is
positive. -/
def get_pooled_hpcp (st : HpcpState) : List ℚ :=
  if !st.ready || st.frames.isEmpty then List.replicate 12 0
  else
    let pooled := (List.range 12).map (fun bin =>
      let values := st.frames.map (fun frame => frame.getD bin 0)
      0.7 * medianQ values + 0.3 * meanQ values)
    let s := pooled.sum
    if 0 < s then pooled.map (fun v => v / s) else pooled

/-! ### f32-level model of freq_to_pitch_class_precise (utils.rs, lib.rs) -/

/-- Model of an `f32` value: NaN, the infinities, or a finite value idealized
as a rational. -/
inductive F32 where
  | nan : F32
  | inf : F32
  | ninf : F32
  | fin : ℚ → F32

/-- The guard `freq <= 0.0` (false for NaN, true for negative infinity). -/
def F32.leZero : F32 → Bool
  | .nan => false
  | .inf => false
  | .ninf => true
  | .fin q => decide (q ≤ 0)

/-- `f32::round` (ties away from zero) of a finite value, then the saturating
`as i32` cast. -/
def roundAwayClampI32 (q : ℚ) : ℤ :=
  max (-(2 ^ 31)) (min (2 ^ 31 - 1) (if 0 ≤ q then ⌊q + 1 / 2⌋ else -⌊-q + 1 / 2⌋))

/-- `.round() as i32` on a model float: NaN casts to 0, infinities saturate. -/
def F32.roundToI32 : F32 → ℤ
  | .nan => 0
  | .inf => 2 ^ 31 - 1
  | .ninf => -(2 ^ 31)
  | .fin q => roundAwayClampI32 q

/-- `freq_to_pitch_class_precise` at the f32 level.  The float computation
`12 * log2(freq / 440) + 9` is abstracted as an arbitrary float-valued map
`semi` (theorems quantify over it); `%` on `i32` is Rust's truncated
remainder (`Int.tmod`). -/
def freq_to_pitch_class_precise (semi : F32 → F32) (freq : F32) : ℕ :=
  if F32.leZero freq then 0
  else
    let pitchClass := Int.tmod (F32.roundToI32 (semi freq)) 12
    let pitchClass := if pitchClass < 0 then pitchClass + 12 else pitchClass
    pitchClass.toNat

/-- The harmonic inner loop of `compute_hpcp_frame`, at the f32 level:
`fdivNat` abstracts `adjusted_freq / harmonic`, `geMinFreq` abstracts
`harmonic_freq >= MIN_FREQ`, `sq` abstracts `f32::sqrt`. -/
def hpcpAddHarmonics_f32 (semi : F32 → F32) (fdivNat : F32 → ℕ → F32)
    (geMinFreq : F32 → Bool) (sq : ℚ → ℚ) (adjustedFreq : F32) (magnitude : ℚ)
    (hpcp : List ℚ) : List ℚ :=
  ((List.range 7).map (· + 2)).foldl (fun hpcp harmonic =>
    let harmonicFreq := fdivNat adjustedFreq harmonic
    if geMinFreq harmonicFreq then
      let harmonicPc := freq_to_pitch_class_precise semi harmonicFreq
      hpcp.set harmonicPc (hpcp.getD harmonicPc 0 + magnitude / sq (harmonic : ℚ))
    else hpcp) hpcp

/-- `compute_hpcp_frame` at the f32 level (`fmulCent` abstracts
`freq * cent_factor`); every bin update indexes with
`freq_to_pitch_class_precise`, which C9 shows is always `< 12`. -/
def compute_hpcp_frame_f32 (semi : F32 → F32) (fmulCent : F32 → F32)
    (fdivNat : F32 → ℕ → F32) (geMinFreq : F32 → Bool) (sq : ℚ → ℚ)
    (peaks : List (F32 × ℚ)) : List ℚ :=
  let hpcp := peaks.foldl (fun (hpcp : List ℚ) peak =>
    let adjustedFreq := fmulCent peak.1
    let fundamentalPc := freq_to_pitch_class_precise semi adjustedFreq
    let hpcp := hpcp.set fundamentalPc (hpcp.getD fundamentalPc 0 + peak.2)
    hpcpAddHarmonics_f32 semi fdivNat geMinFreq sq adjustedFreq peak.2 hpcp)
    (List.replicate 12 0)
  let s := hpcp.sum
  if 0 < s then hpcp.map (fun v => v / s) else hpcp

/-! ### Chroma extraction chain (lib.rs MusicAnalyzer), rational semantics

Transcendental `f32` operations are collected in one explicit parameter
bundle; angles that are rational multiples of π are passed as the multiplier
(`cosPi x` stands for `cos (π·x)`). -/

/-- Abstract models of the transcendental `f32` operations used by the
pipeline. -/
structure FloatFuns where
  cosPi : ℚ → ℚ
  sinPi : ℚ → ℚ
  sqrt : ℚ → ℚ
  powf : ℚ → ℚ → ℚ
  log2 : ℚ → ℚ

def MAX_ANALYSIS_SAMPLES : ℕ := 44100 * 60
def MIN_FREQ : ℚ := 65.4
def MAX_FREQ : ℚ := 2093.0

/-- The Blackman-Harris window weight for index `i` of an `n`-sample frame. -/
def blackmanHarrisW (F : FloatFuns) (n i : ℕ) : ℚ :=
  0.35875 - 0.48829 * F.cosPi (2 * i / ((n : ℚ) - 1))
    + 0.14128 * F.cosPi (4 * i / ((n : ℚ) - 1))
    - 0.01168 * F.cosPi (6 * i / ((n : ℚ) - 1))

/-- `compute_professional_fft`: direct DFT magnitudes for bins `1..n/2`
(bin 0 stays 0), normalized by `n`. -/
def compute_professional_fft (F : FloatFuns) (samples : List ℚ) : List ℚ :=
  let n := samples.length
  (List.range (n / 2)).map (fun k =>
    if k = 0 then 0
    else
      let real := ((List.range n).map
        (fun i => samples.getD i 0 * F.cosPi (2 * k * i / n))).sum
      let imag := ((List.range n).map
        (fun i => samples.getD i 0 * F.sinPi (2 * k * i / n))).sum
      F.sqrt (real * real + imag * imag) / (n : ℚ))

/-- `apply_spectral_whitening`: divide each bin by the 5-wide local average
raised to 0.33, when that average exceeds `1e-8`. -/
def apply_spectral_whitening (F : FloatFuns) (spectrum : List ℚ) : List ℚ :=
  (List.range spectrum.length).map (fun i =>
    let start := i - 2
    let stop := min (i + 2 + 1) spectrum.length
    let localAvg := ((spectrum.drop start).take (stop - start)).sum / ((stop - start : ℕ) : ℚ)
    if 1e-8 < localAvg then spectrum.getD i 0 / F.powf localAvg 0.33
    else spectrum.getD i 0)

/-- `pick_spectral_peaks`: local maxima (strict over both neighbours on each
side) above `10^(-60/20)`, restricted to `[65.4, 2093]` Hz, sorted by
magnitude descending, top 50 kept. -/
noncomputable def pick_spectral_peaks (F : FloatFuns) (sr : ℚ) (spectrum : List ℚ) :
    List (ℚ × ℚ) :=
  let thresholdLinear := F.powf 10 ((-60 : ℚ) / 20)
  let peaks := (List.range spectrum.length).filterMap (fun i =>
    if 2 ≤ i ∧ i + 2 < spectrum.length then
      let magnitude := spectrum.getD i 0
      if thresholdLinear < magnitude ∧ spectrum.getD (i - 1) 0 < magnitude ∧
          spectrum.getD (i + 1) 0 < magnitude ∧ spectrum.getD (i - 2) 0 < magnitude ∧
          spectrum.getD (i + 2) 0 < magnitude then
        let freq := i * sr / ((spectrum.length * 2 : ℕ) : ℚ)
        if MIN_FREQ ≤ freq ∧ freq ≤ MAX_FREQ then some (freq, magnitude) else none
      else none
    else none)
  (peaks.mergeSort (fun a b => decide (b.2 ≤ a.2))).take 50

/-- `freq_to_pitch_class_precise` under the rational idealization used by the
pipeline embedding (same structure as the f32-level model; `F.log2` models
`f32::log2`). -/
def freq_to_pitch_class_precise_q (F : FloatFuns) (freq : ℚ) : ℕ :=
  if freq ≤ 0 then 0
  else
    let semitonesFromA4 := 12 * F.log2 (freq / 440)
    let pitchClass := Int.tmod (roundAwayClampI32 (semitonesFromA4 + 9)) 12
    let pitchClass := if pitchClass < 0 then pitchClass + 12 else pitchClass
    pitchClass.toNat

/-- `compute_hpcp_frame` (lib.rs): fundamental plus subharmonics 2..8 at
weight `magnitude / sqrt k`, then sum-normalization when positive. -/
def compute_hpcp_frame (F : FloatFuns) (peaks : List (ℚ × ℚ)) (tuningOffset : ℚ) : List ℚ :=
  let centFactor := F.powf 2 (tuningOffset / 1200)
  let hpcp := peaks.foldl (fun (hpcp : List ℚ) peak =>
    let adjustedFreq := peak.1 * centFactor
    let fundamentalPc := freq_to_pitch_class_precise_q F adjustedFreq
    let hpcp := hpcp.set fundamentalPc (hpcp.getD fundamentalPc 0 + peak.2)
    ((List.range 7).map (· + 2)).foldl (fun (hpcp : List ℚ) (harmonic : ℕ) =>
      let harmonicFreq := adjustedFreq / (harmonic : ℚ)
      if MIN_FREQ ≤ harmonicFreq then
        let harmonicPc := freq_to_pitch_class_precise_q F harmonicFreq
        hpcp.set harmonicPc (hpcp.getD harmonicPc 0 + peak.2 / F.sqrt (harmonic : ℚ))
      else hpcp) hpcp)
    (List.replicate 12 0)
  let s := hpcp.sum
  if 0 < s then hpcp.map (fun v => v / s) else hpcp

/-- `compute_simple_fft`: DFT over every 4th sample, normalized by `n / 4`. -/
def compute_simple_fft (F : FloatFuns) (samples : List ℚ) : List ℚ :=
  let n := samples.length
  (List.range (n / 2)).map (fun k =>
    if k = 0 then 0
    else
      let real := ((List.range ((n + 3) / 4)).map
        (fun j => samples.getD (4 * j) 0 * F.cosPi (2 * k * (4 * j) / n))).sum
      let imag := ((List.range ((n + 3) / 4)).map
        (fun j => samples.getD (4 * j) 0 * F.sinPi (2 * k * (4 * j) / n))).sum
      F.sqrt (real * real + imag * imag) / ((n : ℚ) / 4))

/-- `calculate_harmonic_content`: harmonic-alignment score of the first
quarter of the spectrum under a tuning offset in cents. -/
def calculate_harmonic_content (F : FloatFuns) (sr : ℚ) (spectrum : List ℚ)
    (offsetCents : ℚ) : ℚ :=
  let centFactor := F.powf 2 (offsetCents / 1200)
  ((List.range (spectrum.length / 4)).map (fun bin =>
    let magnitude := spectrum.getD bin 0
    if magnitude < 1e-6 then 0
    else
      let freq := (bin * sr / ((spectrum.length * 2 : ℕ) : ℚ)) * centFactor
      if MIN_FREQ ≤ freq ∧ freq ≤ MAX_FREQ then
        (((List.range 7).map (· + 2)).map (fun (harmonic : ℕ) =>
          let harmonicFreq := freq * (harmonic : ℚ)
          let harmonicBin := (⌊harmonicFreq * ((spectrum.length * 2 : ℕ) : ℚ) / sr⌋).toNat
          if harmonicBin < spectrum.length ∧
              magnitude * 0.1 < spectrum.getD harmonicBin 0 then
            magnitude * spectrum.getD harmonicBin 0 / (harmonic : ℚ)
          else 0)).sum
      else 0)).sum

/-- `calculate_tuning_score`: average harmonic content over 2048-sample
frames of a subsampled prefix. -/
def calculate_tuning_score (F : FloatFuns) (sr : ℚ) (pcm : List ℚ)
    (offsetCents : ℚ) : ℚ :=
  let maxSamples := min (pcm.length / 8) 44100
  let starts := (List.range (maxSamples / 2048)).map (· * 2048)
  let scores := starts.map (fun ws =>
    let frame := (List.range 2048).map (fun i => pcm.getD (ws + i) 0)
    calculate_harmonic_content F sr (compute_simple_fft F frame) offsetCents)
  if 0 < starts.length then scores.sum / (starts.length : ℚ) else 0

/-- `detect_tuning_offset`: best-scoring offset among −50..50 cents in
10-cent steps (strict improvement over the initial `(0, 0)`). -/
def detect_tuning_offset (F : FloatFuns) (sr : ℚ) (pcm : List ℚ) : ℚ :=
  let offsets := (List.range 11).map (fun k => (-50 : ℚ) + 10 * k)
  (offsets.foldl (fun (b : ℚ × ℚ) offset =>
    let score := calculate_tuning_score F sr pcm offset
    if b.2 < score then (offset, score) else b) (0, 0)).1

/-- `extract_chroma_advanced`: Blackman-Harris frames with 50% hop (up to 100
frames, skipping frames below the `1e-6` energy gate), DFT, whitening, peak
picking, HPCP folding, temporal pooling.  The `for`/`break` loop is a fold
whose step is the identity once 100 frames are reached. -/
noncomputable def extract_chroma_advanced (F : FloatFuns) (sr : ℚ) (pcm : List ℚ) : List ℚ :=
  let tuningOffset := detect_tuning_offset F sr pcm
  let maxSamples := min MAX_ANALYSIS_SAMPLES pcm.length
  let starts := (List.range
    (if 4096 ≤ maxSamples then (maxSamples - 4096) / 2048 + 1 else 0)).map (· * 2048)
  let final := starts.foldl (fun (acc : HpcpState × ℕ) ws =>
    if acc.2 < 100 then
      let frame := (List.range 4096).map (fun i => pcm.getD (ws + i) 0 * blackmanHarrisW F 4096 i)
      let windowEnergy := (frame.map (fun x => x * x)).sum
      if windowEnergy < 1e-6 then acc
      else
        let spectrum := compute_professional_fft F frame
        let whitened := apply_spectral_whitening F spectrum
        let peaks := pick_spectral_peaks F sr whitened
        let hpcpFrame := compute_hpcp_frame F peaks tuningOffset
        (acc.1.add_frame hpcpFrame, acc.2 + 1)
    else acc) (HpcpState.new, 0)
  get_pooled_hpcp final.1

/-- `calculate_tonal_clarity`. -/
def calculate_tonal_clarity (chroma : List ℚ) : ℚ :=
  let maxValue := chroma.foldl (fun a b => max a b) 0
  let average := chroma.sum / (chroma.length : ℚ)
  if 0 < average then min (maxValue / average) 10 / 10 else 0

/-- `calculate_harmonic_complexity`. -/
def calculate_harmonic_complexity (chroma : List ℚ) : ℚ :=
  let threshold := (chroma.foldl (fun a b => max a b) 0) * 0.3
  let activePitches := (chroma.filter (fun x => decide (threshold < x))).length
  min ((activePitches : ℚ) / 12) 1

/-- Substring test modelling Rust's `str::contains`. -/
def containsSub (s pat : String) : Bool :=
  (List.range (s.toList.length + 1)).any (fun i => pat.toList.isPrefixOf (s.toList.drop i))

/-- `categorize_scale`. -/
def categorize_scale (scaleName : String) : String :=
  if containsSub scaleName "Major" || containsSub scaleName "Lydian" ||
      containsSub scaleName "Mixolydian" then "Major Family"
  else if containsSub scaleName "Minor" || containsSub scaleName "Dorian" ||
      containsSub scaleName "Phrygian" || containsSub scaleName "Aeolian" then "Minor Family"
  else if containsSub scaleName "Pentatonic" then "Pentatonic"
  else if containsSub scaleName "Blues" then "Blues"
  else if containsSub scaleName "Diminished" || containsSub scaleName "Locrian" then
    "Diminished"
  else if containsSub scaleName "Arabic" || containsSub scaleName "Persian" ||
      containsSub scaleName "Hungarian" || containsSub scaleName "Spanish" then "World/Exotic"
  else "Other"

/-- The fields of the result object built by `MusicAnalyzer::analyze_music`
(scales carry `(category, name, strength)`). -/
structure MusicResult where
  key : String
  root_note : String
  is_major : Bool
  confidence : ℚ
  tonal_clarity : ℚ
  harmonic_complexity : ℚ
  chroma : List ℚ
  scales : List (String × String × ℝ)

/-- `MusicAnalyzer::analyze_music`. -/
noncomputable def analyze_music (F : FloatFuns) (sr : ℚ) (pcm : List ℚ) : MusicResult :=
  let chroma := extract_chroma_advanced F sr pcm
  let dk := detect_key F.sqrt chroma
  let keyName := NOTE_NAMES.getD dk.1 "" ++ " " ++ (if dk.2.1 then "Major" else "Minor")
  let scaleMatches := analyze_scales chroma
  { key := keyName,
    root_note := NOTE_NAMES.getD dk.1 "",
    is_major := dk.2.1,
    confidence := dk.2.2,
    tonal_clarity := calculate_tonal_clarity chroma,
    harmonic_complexity := calculate_harmonic_complexity chroma,
    chroma := chroma,
    scales := scaleMatches.map (fun m => (categorize_scale m.1, m.1, m.2)) }

/-! ### Analyzer state threading (C7)

Both entry points take `&self` in the Rust source; the embedding makes that
explicit by returning the (necessarily unchanged) analyzer state alongside
the result, so that running the analysis twice threads the state through. -/

/-- `LoudnessAnalyzer` configuration state. -/
structure LoudnessAnalyzer where
  num_channels : ℕ

/-- `MusicAnalyzer` configuration state. -/
structure MusicAnalyzer where
  sample_rate : ℚ
  skey_enabled : Bool

/-- `LoudnessAnalyzer::analyze` with its receiver state threaded through. -/
def LoudnessAnalyzer.analyzeS (lg : ℚ → ℚ) (a : LoudnessAnalyzer) (pcm : List ℚ) :
    AnalyzeResult × LoudnessAnalyzer :=
  (analyze lg a.num_channels pcm, a)

/-- `MusicAnalyzer::analyze_music` with its receiver state threaded through. -/
noncomputable def MusicAnalyzer.analyze_musicS (F : FloatFuns) (a : MusicAnalyzer)
    (pcm : List ℚ) : MusicResult × MusicAnalyzer :=
  (analyze_music F a.sample_rate pcm, a)

/-! ### Helper lemmas -/

theorem getD_eq_zero {pcm : List ℚ} (hz : ∀ x ∈ pcm, x = 0) (i : ℕ) : pcm.getD i 0 = 0 := by
  rcases h : pcm[i]? with _ | x
  · simp [List.getD, h]
  · have hx : x ∈ pcm := by
      rcases List.getElem?_eq_some_iff.mp h with ⟨hlt, hget⟩
      exact hget ▸ List.getElem_mem hlt
    simp [List.getD, h, hz x hx]

theorem kStep_zero (e : ℚ) :
    kStep { x1 := 0, x2 := 0, y1 := 0, y2 := 0, energy := e } 0 =
      { x1 := 0, x2 := 0, y1 := 0, y2 := 0, energy := e } := by
  simp [kStep]

theorem foldl_kStep_zero {pcm : List ℚ} (hz : ∀ x ∈ pcm, x = 0)
    (numChannels start ch : ℕ) (l : List ℕ) (e : ℚ) :
    (l.foldl (fun s i => kStep s (pcm.getD ((start + i) * numChannels + ch) 0))
      { x1 := 0, x2 := 0, y1 := 0, y2 := 0, energy := e }) =
      { x1 := 0, x2 := 0, y1 := 0, y2 := 0, energy := e } := by
  induction l with
  | nil => rfl
  | cons a l ih =>
    rw [List.foldl_cons, getD_eq_zero hz, kStep_zero]
    exact ih

theorem channelPass_zero {pcm : List ℚ} (hz : ∀ x ∈ pcm, x = 0)
    (numChannels start ch blockSize : ℕ) (e : ℚ) :
    channelPass pcm numChannels start ch blockSize e = e := by
  unfold channelPass
  rw [foldl_kStep_zero hz]

theorem calculate_block_energy_zero {pcm : List ℚ} (hz : ∀ x ∈ pcm, x = 0)
    (numChannels start blockSize : ℕ) :
    calculate_block_energy pcm numChannels start blockSize = 0 := by
  have hfold : ∀ (l : List ℕ) (a : ℚ),
      l.foldl (fun e ch => channelPass pcm numChannels start ch blockSize e) a = a := by
    intro l
    induction l with
    | nil => intro a; rfl
    | cons c l ih =>
      intro a
      rw [List.foldl_cons, channelPass_zero hz]
      exact ih a
  simp [calculate_block_energy, hfold]

theorem loudness_zero {lg : ℚ → ℚ} (hlg : lg (1e-10 : ℚ) = -10) :
    loudnessOf lg 0 = -100.691 := by
  simp only [loudnessOf, zero_add, hlg]
  norm_num

theorem process_blocksAux_silent {lg : ℚ → ℚ} (hlg : lg (1e-10 : ℚ) = -10)
    {pcm : List ℚ} (hz : ∀ x ∈ pcm, x = 0) (numChannels blockSize hop spc : ℕ) :
    ∀ fuel i, process_blocksAux lg pcm numChannels blockSize hop spc fuel i = [] := by
  intro fuel
  induction fuel with
  | zero => intro i; rfl
  | succ n ih =>
    intro i
    rw [process_blocksAux]
    split
    · simp only [calculate_block_energy_zero hz, loudness_zero hlg, ih, List.append_nil]
      rw [if_neg (by norm_num [ABSOLUTE_GATE])]
    · rfl

theorem process_blocks_silent {lg : ℚ → ℚ} (hlg : lg (1e-10 : ℚ) = -10)
    {pcm : List ℚ} (hz : ∀ x ∈ pcm, x = 0) (numChannels blockSize hop : ℕ) :
    process_blocks lg pcm numChannels blockSize hop = [] := by
  simp [process_blocks, process_blocksAux_silent hlg hz]

/-! ### Claim theorems -/

/-- C1: for any non-empty absolute-gated energy sequence, the relative gate
threshold equals the preliminary loudness (`-0.691 + 10*log10(mean + 1e-10)`)
minus exactly 10; a block survives the relative gate iff its own loudness
`-0.691 + 10*log10(e + 1e-10)` is `≥` that threshold; and (when any block
survives) the integrated loudness is `-0.691 + 10*log10(mean of survivors + 1e-10)`. -/
theorem relative_gate_integration (lg : ℚ → ℚ) (energies : List ℚ) (hne : energies ≠ []) :
    relativeThreshold lg energies = preliminaryLoudness lg energies - 10 ∧
    preliminaryLoudness lg energies =
      -0.691 + 10 * lg (energies.sum / (energies.length : ℚ) + 1e-10) ∧
    (∀ e : ℚ, e ∈ relGated lg energies ↔
      e ∈ energies ∧ relativeThreshold lg energies ≤ loudnessOf lg e) ∧
    (relGated lg energies ≠ [] →
      calculate_integrated_loudness lg energies =
        ((-0.691 + 10 *
          lg ((relGated lg energies).sum / ((relGated lg energies).length : ℚ) + 1e-10) : ℚ) :
            WithBot ℚ)) := by
  refine ⟨?_, ?_, ?_, ?_⟩
  · simp [relativeThreshold, RELATIVE_GATE, sub_eq_add_neg]
  · simp [preliminaryLoudness, loudnessOf]
  · intro e
    simp [relGated, List.mem_filter]
  · intro hrel
    have h1 : energies.isEmpty = false := by simpa [List.isEmpty_iff] using hne
    have h2 : (relGated lg energies).isEmpty = false := by
      simpa [List.isEmpty_iff] using hrel
    simp [calculate_integrated_loudness, h1, h2, loudnessOf]

/-- Witness for C1 at `lg = id`, `energies = [1]`. -/
theorem relative_gate_integration_witness :
    relativeThreshold (fun q : ℚ => q) [1] = preliminaryLoudness (fun q : ℚ => q) [1] - 10 ∧
    calculate_integrated_loudness (fun q : ℚ => q) [1] =
      ((-0.691 + 10 *
        ((relGated (fun q : ℚ => q) [1]).sum / ((relGated (fun q : ℚ => q) [1]).length : ℚ)
          + 1e-10) : ℚ) : WithBot ℚ) :=
  ⟨(relative_gate_integration (fun q => q) [1] (by decide)).1,
   (relative_gate_integration (fun q => q) [1] (by decide)).2.2.2 (by
      have h : relGated (fun q : ℚ => q) [1] = [1] := by
        norm_num [relGated, relativeThreshold, preliminaryLoudness, loudnessOf,
          RELATIVE_GATE, List.filter]
      simp [h])⟩

/-- C2: for an all-zero input buffer every block's loudness (`-100.691`) falls
below the `-70` absolute gate, so the absolute-gated set is empty, the gated
block count is 0, and momentary, short-term and integrated loudness are all
negative infinity — the calibration offsets leave `⊥` unchanged. -/
theorem silence_all_measures_neg_inf (lg : ℚ → ℚ) (hlg : lg (1e-10 : ℚ) = -10)
    (numChannels : ℕ) (_hnc : 0 < numChannels) (pcm : List ℚ) (hz : ∀ x ∈ pcm, x = 0) :
    process_blocks lg pcm numChannels MOMENTARY_BLOCK_SIZE MOMENTARY_HOP = [] ∧
    analyze lg numChannels pcm =
      { momentary := ⊥, shortTerm := ⊥, integrated := ⊥,
        preliminary_loudness := ⊥, gate_threshold := ⊥, abs_gated_blocks := 0 } := by
  refine ⟨process_blocks_silent hlg hz _ _ _, ?_⟩
  simp [analyze, process_blocks_silent hlg hz, calculate_max_loudness,
    calculate_integrated_loudness]

/-- Witness for C2 at a concrete all-zero 3-sample mono buffer. -/
theorem silence_all_measures_neg_inf_witness :
    analyze (fun q : ℚ => if q = (1e-10 : ℚ) then -10 else 0) 1 [0, 0, 0] =
      { momentary := ⊥, shortTerm := ⊥, integrated := ⊥,
        preliminary_loudness := ⊥, gate_threshold := ⊥, abs_gated_blocks := 0 } :=
  (silence_all_measures_neg_inf (fun q : ℚ => if q = (1e-10 : ℚ) then -10 else 0)
    (by norm_num) 1 (by norm_num) [0, 0, 0] (by decide)).2

/-- C3: for every chroma input (and every model of `f32::sqrt`), the final
key-detection confidence equals `clamp(consensus * agreement, 0.05, 0.95)`
and therefore lies in `[0.05, 0.95]`. -/
theorem detect_key_confidence_clamped (sq : ℚ → ℚ) (chroma : List ℚ) :
    (detect_key sq chroma).2.2 =
      min (max ((calculate_weighted_consensus (profileResults sq chroma)).2.2 *
        calculate_profile_agreement sq (profileResults sq chroma)) 0.05) 0.95 ∧
    0.05 ≤ (detect_key sq chroma).2.2 ∧ (detect_key sq chroma).2.2 ≤ 0.95 := by
  refine ⟨rfl, ?_, ?_⟩
  · exact le_min (le_max_right _ _) (by norm_num)
  · exact min_le_right _ _

theorem pairAgreement_eq_amended {r1 r2 : ℕ} (h1 : r1 < 12) (h2 : r2 < 12) (m1 m2 : Bool) :
    pairAgreement r1 m1 r2 m2 = pairAgreement_amended r1 m1 r2 m2 := by
  unfold pairAgreement pairAgreement_amended
  have e0 : (r1 = r2) ↔ ((r1 + 12 - r2) % 12 = 0) := by omega
  have e3 : ((r1 + 3) % 12 = r2 ∨ (r2 + 3) % 12 = r1) ↔
      ((r1 + 12 - r2) % 12 = 3 ∨ (r1 + 12 - r2) % 12 = 9) := by omega
  have e7 : ((r1 + 7) % 12 = r2 ∨ (r2 + 7) % 12 = r1) ↔
      ((r1 + 12 - r2) % 12 = 5 ∨ (r1 + 12 - r2) % 12 = 7) := by omega
  simp only [e0, e3, e7]

theorem getD_root_lt {results : List ((ℕ × Bool × ℚ) × ℚ)}
    (h : ∀ r ∈ results, r.1.1 < 12) (i : ℕ) :
    (results.getD i ((0, true, 0), 0)).1.1 < 12 := by
  rcases hh : results[i]? with _ | r
  · simp [List.getD, hh]
  · have hr : r ∈ results := by
      rcases List.getElem?_eq_some_iff.mp hh with ⟨hlt, hget⟩
      exact hget ▸ List.getElem_mem hlt
    simp [List.getD, hh, h r hr]

/-- C5 counterexample: with family winners `(root 0, major)` and
`(root 3, major)` — same mode, roots 3 apart — the code's agreement is 0.6
while the claim's table (which requires opposite modes for the 0.6 branch)
yields the 0.3 floor, so the claim as stated is false. -/
theorem profile_agreement_claim_counterexample :
    calculate_profile_agreement (fun q : ℚ => q)
        [((0, true, 1), 0.35), ((3, true, 1), 0.25)] = 0.6 ∧
    calculate_profile_agreement_claim (fun q : ℚ => q)
        [((0, true, 1), 0.35), ((3, true, 1), 0.25)] = 0.3 ∧
    calculate_profile_agreement (fun q : ℚ => q)
        [((0, true, 1), 0.35), ((3, true, 1), 0.25)] ≠
      calculate_profile_agreement_claim (fun q : ℚ => q)
        [((0, true, 1), 0.35), ((3, true, 1), 0.25)] := by
  refine ⟨?_, ?_, ?_⟩ <;>
    norm_num [calculate_profile_agreement, calculate_profile_agreement_claim,
      indexPairs, pairAgreement, pairAgreement_claim, List.range_succ]

/-- C5 amended: the pairwise agreement is 1.0 for identical (root, mode),
0.7 for same root with different mode, 0.6 whenever the roots are 3 semitones
apart in either direction (regardless of mode), 0.4 whenever they are 7
semitones apart in either direction, else 0; each pair is weighted by
`sqrt(conf1 * conf2)` and the average over pairs is floored at 0.3. -/
theorem profile_agreement_code_table (sq : ℚ → ℚ)
    (results : List ((ℕ × Bool × ℚ) × ℚ)) (h : ∀ r ∈ results, r.1.1 < 12) :
    calculate_profile_agreement sq results =
      calculate_profile_agreement_amended sq results := by
  unfold calculate_profile_agreement calculate_profile_agreement_amended
  split
  · rfl
  · have hmap : (indexPairs results.length).map (fun p =>
        let r1 := (results.getD p.1 ((0, true, 0), 0)).1
        let r2 := (results.getD p.2 ((0, true, 0), 0)).1
        pairAgreement r1.1 r1.2.1 r2.1 r2.2.1 * sq (r1.2.2 * r2.2.2)) =
        (indexPairs results.length).map (fun p =>
        let r1 := (results.getD p.1 ((0, true, 0), 0)).1
        let r2 := (results.getD p.2 ((0, true, 0), 0)).1
        pairAgreement_amended r1.1 r1.2.1 r2.1 r2.2.1 * sq (r1.2.2 * r2.2.2)) := by
      refine List.map_congr_left ?_
      intro p _
      dsimp only
      rw [pairAgreement_eq_amended (getD_root_lt h p.1) (getD_root_lt h p.2)]
    dsimp only
    rw [hmap]

/-- Witness for C5's amended theorem at a concrete winners list. -/
theorem profile_agreement_code_table_witness :
    calculate_profile_agreement (fun q : ℚ => q)
        [((0, true, 1), 0.35), ((3, true, 1), 0.25)] =
      calculate_profile_agreement_amended (fun q : ℚ => q)
        [((0, true, 1), 0.35), ((3, true, 1), 0.25)] :=
  profile_agreement_code_table (fun q => q) _ (by decide)

theorem noteIntervalWrap_spec (w i root : ℕ) (hw : 5 ≤ w) (hi : i < 12) (hroot : root < 12) :
    noteIntervalWrap w i root = (i + 12 - root) % 12 ∧ noteIntervalWrap w i root < 12 := by
  have hW : 32 ≤ 2 ^ w := by
    calc (32 : ℕ) = 2 ^ 5 := by norm_num
    _ ≤ 2 ^ w := Nat.pow_le_pow_right (by norm_num) hw
  unfold noteIntervalWrap wrapAdd wrapSub
  rw [Nat.mod_eq_of_lt (show i < 2 ^ w by omega),
      Nat.mod_eq_of_lt (show root < 2 ^ w by omega)]
  rcases le_or_lt root i with hcase | hcase
  · have h3 : i + (2 ^ w - root) = 2 ^ w + (i - root) := by omega
    rw [h3, Nat.add_mod_left, Nat.mod_eq_of_lt (show i - root < 2 ^ w by omega),
        Nat.mod_eq_of_lt (show i - root + 12 < 2 ^ w by omega)]
    refine ⟨?_, Nat.mod_lt _ (by norm_num)⟩
    congr 1
    omega
  · have h3 : i + (2 ^ w - root) = 2 ^ w - (root - i) := by omega
    rw [h3, Nat.mod_eq_of_lt (show 2 ^ w - (root - i) < 2 ^ w by omega)]
    have h5 : 2 ^ w - (root - i) + 12 = 2 ^ w + (12 - (root - i)) := by omega
    rw [h5, Nat.add_mod_left, Nat.mod_eq_of_lt (show 12 - (root - i) < 2 ^ w by omega)]
    refine ⟨?_, Nat.mod_lt _ (by norm_num)⟩
    congr 1
    omega

/-- C10: although `i - root` wraps modulo `2^w` whenever `i < root`, adding 12
and reducing modulo `2^w` and then modulo 12 recovers the mathematical
`(i - root) mod 12`, which lies in `0..11`, for all `i, root < 12`. -/
theorem noteIntervalWrap_correct (w i root : ℕ) (hw : 5 ≤ w) (hi : i < 12) (hroot : root < 12) :
    noteIntervalWrap w i root = (i + 12 - root) % 12 ∧ noteIntervalWrap w i root < 12 :=
  noteIntervalWrap_spec w i root hw hi hroot

/-- Witness for C10 at `w = 32`, `i = 2`, `root = 9` (a wrapping case). -/
theorem noteIntervalWrap_correct_witness :
    noteIntervalWrap 32 2 9 = (2 + 12 - 9) % 12 ∧ noteIntervalWrap 32 2 9 < 12 :=
  noteIntervalWrap_correct 32 2 9 (by norm_num) (by norm_num) (by norm_num)

theorem runFrames_spec (fs : List (List ℚ)) :
    (runFrames fs).frames = fs.drop (fs.length - 50) ∧
    (runFrames fs).frame_count = fs.length ∧
    (runFrames fs).ready = decide (10 ≤ fs.length) := by
  induction fs using List.reverseRecOn with
  | nil => exact ⟨rfl, rfl, rfl⟩
  | append_singleton l a ih =>
    obtain ⟨ihf, ihc, ihr⟩ := ih
    have hstep : runFrames (l ++ [a]) = (runFrames l).add_frame a := by
      simp [runFrames, List.foldl_append]
    rw [hstep]
    unfold HpcpState.add_frame
    rw [ihf, ihc, ihr]
    dsimp only
    refine ⟨?_, by simp, ?_⟩
    · rcases le_or_lt 50 l.length with hlen | hlen
      · have hdlen : (l.drop (l.length - 50)).length = 50 := by
          rw [List.length_drop]
          omega
        rw [if_pos (by simp only [List.length_append, hdlen, List.length_singleton]; omega)]
        rcases hd : l.drop (l.length - 50) with _ | ⟨x, t⟩
        · exfalso
          rw [hd] at hdlen
          simp at hdlen
        · have htail : (x :: t ++ [a]).tail = t ++ [a] := rfl
          rw [htail]
          have ht : t = l.drop (l.length - 50 + 1) := by
            have h0 := List.tail_drop l (l.length - 50)
            rw [hd] at h0
            simpa using h0
          have harith : (l ++ [a]).length - 50 = l.length - 50 + 1 := by
            simp only [List.length_append, List.length_singleton]
            omega
          rw [ht, harith, List.drop_append_of_le_length (by omega)]
      · rw [if_neg (by
          simp only [List.length_append, List.length_drop, List.length_singleton]; omega)]
        have h1 : l.length - 50 = 0 := by omega
        have h2 : (l ++ [a]).length - 50 = 0 := by
          simp only [List.length_append, List.length_singleton]
          omega
        rw [h1, h2]
        simp
    · simp only [List.length_append, List.length_singleton]
      rcases le_or_lt 10 (l.length + 1) with hten | hten
      · rw [if_pos hten]
        exact (decide_eq_true hten).symm
      · rw [if_neg (by omega)]
        rw [decide_eq_false (by omega : ¬ 10 ≤ l.length),
            decide_eq_false (by omega : ¬ 10 ≤ l.length + 1)]

/-- C8: starting from a fresh `HpcpState`, after any sequence of `add_frame`
calls the buffer holds the most recent `min n 50` frames in order (oldest
evicted first), so its length never exceeds 50, and `ready` is false before
the 10th frame, true from the 10th on, never reverting. -/
theorem add_frame_bounded_fifo_ready (fs : List (List ℚ)) :
    (runFrames fs).frames.length ≤ 50 ∧
    (runFrames fs).frames = fs.drop (fs.length - 50) ∧
    (runFrames fs).ready = decide (10 ≤ fs.length) := by
  obtain ⟨hf, _, hr⟩ := runFrames_spec fs
  refine ⟨?_, hf, hr⟩
  rw [hf, List.length_drop]
  omega

theorem getD_nonneg {f : List ℚ} (h : ∀ x ∈ f, 0 ≤ x) (b : ℕ) : 0 ≤ f.getD b 0 := by
  rcases hh : f[b]? with _ | x
  · simp [List.getD, hh]
  · have hx : x ∈ f := by
      rcases List.getElem?_eq_some_iff.mp hh with ⟨hlt, hget⟩
      exact hget ▸ List.getElem_mem hlt
    simpa [List.getD, hh] using h x hx

theorem medianQ_nonneg {values : List ℚ} (h : ∀ x ∈ values, 0 ≤ x) : 0 ≤ medianQ values := by
  have hs : ∀ x ∈ values.mergeSort (fun a b => decide (a ≤ b)), 0 ≤ x := by
    intro x hx
    exact h x (List.mem_mergeSort.mp hx)
  unfold medianQ
  dsimp only
  split
  · have h1 := getD_nonneg hs (((values.mergeSort (fun a b => decide (a ≤ b))).length) / 2 - 1)
    have h2 := getD_nonneg hs (((values.mergeSort (fun a b => decide (a ≤ b))).length) / 2)
    linarith
  · exact getD_nonneg hs _

theorem medianQ_zero {values : List ℚ} (h : ∀ x ∈ values, x = 0) : medianQ values = 0 := by
  have hs : ∀ x ∈ values.mergeSort (fun a b => decide (a ≤ b)), x = 0 := by
    intro x hx
    exact h x (List.mem_mergeSort.mp hx)
  unfold medianQ
  dsimp only
  split
  · rw [getD_eq_zero hs, getD_eq_zero hs]
    norm_num
  · exact getD_eq_zero hs _

theorem meanQ_nonneg {values : List ℚ} (h : ∀ x ∈ values, 0 ≤ x) : 0 ≤ meanQ values :=
  div_nonneg (List.sum_nonneg h) (Nat.cast_nonneg _)

theorem meanQ_zero {values : List ℚ} (h : ∀ x ∈ values, x = 0) : meanQ values = 0 := by
  unfold meanQ
  rw [List.sum_eq_zero h, zero_div]

theorem meanQ_pos {values : List ℚ} (hne : values ≠ []) (h : ∀ x ∈ values, 0 ≤ x)
    {x : ℚ} (hx : x ∈ values) (hpos : 0 < x) : 0 < meanQ values :=
  div_pos (lt_of_lt_of_le hpos (List.single_le_sum h x hx))
    (by exact_mod_cast List.length_pos.mpr hne)

theorem sum_map_div (l : List ℚ) (c : ℚ) : (l.map (fun v => v / c)).sum = l.sum / c := by
  induction l with
  | nil => simp
  | cons a l ih => simp [ih, add_div]

theorem get_pooled_sum_zero (st : HpcpState) (hz : ∀ f ∈ st.frames, ∀ x ∈ f, x = 0) :
    (get_pooled_hpcp st).sum = 0 := by
  unfold get_pooled_hpcp
  split
  · simp
  · dsimp only
    have hsum : ((List.range 12).map (fun bin =>
        0.7 * medianQ (st.frames.map (fun frame => frame.getD bin 0)) +
        0.3 * meanQ (st.frames.map (fun frame => frame.getD bin 0)))).sum = 0 := by
      apply List.sum_eq_zero
      intro x hx
      rcases List.mem_map.mp hx with ⟨bin, _, rfl⟩
      have hcol : ∀ y ∈ st.frames.map (fun frame => frame.getD bin 0), y = 0 := by
        intro y hy
        rcases List.mem_map.mp hy with ⟨f, hf, rfl⟩
        exact getD_eq_zero (hz f hf) bin
      rw [medianQ_zero hcol, meanQ_zero hcol]
      norm_num
    rw [if_neg (by rw [hsum]; exact lt_irrefl 0)]
    exact hsum

/-- C6 counterexample: ten all-zero HPCP frames make the state ready, yet the
pooled profile sums to 0, not to 1 within 1e-5 (renormalization is skipped
when the pooled sum is not positive). -/
theorem pooled_hpcp_claim_counterexample :
    (runFrames (List.replicate 10 (List.replicate 12 (0 : ℚ)))).ready = true ∧
    ¬ |(get_pooled_hpcp (runFrames (List.replicate 10 (List.replicate 12 (0 : ℚ))))).sum - 1|
        ≤ 1e-5 := by
  have hr := (runFrames_spec (List.replicate 10 (List.replicate 12 (0 : ℚ)))).2.2
  have hf := (runFrames_spec (List.replicate 10 (List.replicate 12 (0 : ℚ)))).1
  constructor
  · rw [hr]
    simp
  · have hz : ∀ f ∈ (runFrames (List.replicate 10 (List.replicate 12 (0 : ℚ)))).frames,
        ∀ x ∈ f, x = 0 := by
      rw [hf]
      intro f hfm x hx
      have hfm10 : f ∈ List.replicate 10 (List.replicate 12 (0 : ℚ)) := by simpa using hfm
      have hfr : f = List.replicate 12 (0 : ℚ) := List.eq_of_mem_replicate hfm10
      rw [hfr] at hx
      exact List.eq_of_mem_replicate hx
    rw [get_pooled_sum_zero _ hz]
    norm_num

/-- C6 amended: whenever the state is ready and the buffered frames are
non-negative with at least one strictly positive bin below 12, the pooled
profile sums to exactly 1 (hence to 1 within the claimed 1e-5 tolerance).
Without the positivity proviso the pooled sum can be 0 — see the
counterexample. -/
theorem pooled_hpcp_sums_to_one (st : HpcpState) (hready : st.ready = true)
    (hnn : ∀ f ∈ st.frames, ∀ x ∈ f, 0 ≤ x)
    (hpos : ∃ f ∈ st.frames, ∃ b, b < 12 ∧ 0 < f.getD b 0) :
    (get_pooled_hpcp st).sum = 1 ∧ |(get_pooled_hpcp st).sum - 1| ≤ 1e-5 := by
  suffices h : (get_pooled_hpcp st).sum = 1 by
    refine ⟨h, ?_⟩
    rw [h]
    norm_num
  obtain ⟨f0, hf0, b0, hb0, hfb0⟩ := hpos
  have hne : st.frames ≠ [] := by
    intro h'
    rw [h'] at hf0
    exact absurd hf0 (List.not_mem_nil _)
  have hemp : st.frames.isEmpty = false := by simpa [List.isEmpty_iff] using hne
  unfold get_pooled_hpcp
  rw [hready, hemp, if_neg (by decide)]
  dsimp only
  have hcolnn : ∀ bin, ∀ x ∈ st.frames.map (fun frame => frame.getD bin 0), 0 ≤ x := by
    intro bin x hx
    rcases List.mem_map.mp hx with ⟨f, hf, rfl⟩
    exact getD_nonneg (hnn f hf) bin
  have hentrynn : ∀ x ∈ (List.range 12).map (fun bin =>
      0.7 * medianQ (st.frames.map (fun frame => frame.getD bin 0)) +
      0.3 * meanQ (st.frames.map (fun frame => frame.getD bin 0))), 0 ≤ x := by
    intro x hx
    rcases List.mem_map.mp hx with ⟨bin, _, rfl⟩
    have h1 := medianQ_nonneg (hcolnn bin)
    have h2 := meanQ_nonneg (hcolnn bin)
    linarith
  have hmeanpos : 0 < meanQ (st.frames.map (fun frame => frame.getD b0 0)) := by
    refine meanQ_pos ?_ (hcolnn b0) (List.mem_map.mpr ⟨f0, hf0, rfl⟩) hfb0
    simpa using hne
  have hentrypos : 0 < 0.7 * medianQ (st.frames.map (fun frame => frame.getD b0 0)) +
      0.3 * meanQ (st.frames.map (fun frame => frame.getD b0 0)) := by
    have h1 := medianQ_nonneg (hcolnn b0)
    linarith
  have hmem : (0.7 * medianQ (st.frames.map (fun frame => frame.getD b0 0)) +
      0.3 * meanQ (st.frames.map (fun frame => frame.getD b0 0))) ∈
      (List.range 12).map (fun bin =>
        0.7 * medianQ (st.frames.map (fun frame => frame.getD bin 0)) +
        0.3 * meanQ (st.frames.map (fun frame => frame.getD bin 0))) :=
    List.mem_map.mpr ⟨b0, List.mem_range.mpr hb0, rfl⟩
  have hsumpos : 0 < ((List.range 12).map (fun bin =>
      0.7 * medianQ (st.frames.map (fun frame => frame.getD bin 0)) +
      0.3 * meanQ (st.frames.map (fun frame => frame.getD bin 0)))).sum :=
    lt_of_lt_of_le hentrypos (List.single_le_sum hentrynn _ hmem)
  rw [if_pos hsumpos, sum_map_div]
  exact div_self (ne_of_gt hsumpos)

/-- Witness for C6's amended theorem: ten frames `[1, 0, …, 0]`. -/
theorem pooled_hpcp_sums_to_one_witness :
    (get_pooled_hpcp (runFrames (List.replicate 10 ((1 : ℚ) :: List.replicate 11 0)))).sum = 1 ∧
    |(get_pooled_hpcp (runFrames (List.replicate 10 ((1 : ℚ) :: List.replicate 11 0)))).sum - 1|
      ≤ 1e-5 := by
  have hf := (runFrames_spec (List.replicate 10 ((1 : ℚ) :: List.replicate 11 0))).1
  refine pooled_hpcp_sums_to_one _ ?_ ?_ ?_
  · rw [(runFrames_spec (List.replicate 10 ((1 : ℚ) :: List.replicate 11 0))).2.2]
    simp
  · rw [hf]
    intro f hfm x hx
    have hfm10 : f ∈ List.replicate 10 ((1 : ℚ) :: List.replicate 11 0) := by simpa using hfm
    have hfr : f = (1 : ℚ) :: List.replicate 11 0 := List.eq_of_mem_replicate hfm10
    rw [hfr] at hx
    rcases List.mem_cons.mp hx with rfl | hx0
    · norm_num
    · rw [List.eq_of_mem_replicate hx0]
  · refine ⟨(1 : ℚ) :: List.replicate 11 0, ?_, 0, by norm_num, by norm_num⟩
    rw [hf]
    simp

theorem scale_filter_in_cex :
    (List.range 12).filter
      (fun i => decide (noteIntervalWrap 32 i 0 ∈ ([0, 2, 4, 5, 7, 9, 11] : List ℕ))) =
      [0, 2, 4, 5, 7, 9, 11] := by decide

theorem scale_filter_out_cex :
    (List.range 12).filter
      (fun i => decide (¬ noteIntervalWrap 32 i 0 ∈ ([0, 2, 4, 5, 7, 9, 11] : List ℕ))) =
      [1, 3, 6, 8, 10] := by decide

theorem noteIntervalWrap_root0 (i : ℕ) (hi : i < 12) : noteIntervalWrap 32 i 0 = i := by
  rw [(noteIntervalWrap_spec 32 i 0 (by norm_num) hi (by norm_num)).1]
  omega

theorem inScaleEnergy_cex :
    inScaleEnergy [1, 1, 0, 0, 0, 0, 0, 0, 0, 0, 0, 0] [0, 2, 4, 5, 7, 9, 11] 0 = 3 := by
  unfold inScaleEnergy
  rw [scale_filter_in_cex]
  simp only [List.map_cons, List.map_nil, List.sum_cons, List.sum_nil]
  rw [noteIntervalWrap_root0 0 (by norm_num), noteIntervalWrap_root0 2 (by norm_num),
    noteIntervalWrap_root0 4 (by norm_num), noteIntervalWrap_root0 5 (by norm_num),
    noteIntervalWrap_root0 7 (by norm_num), noteIntervalWrap_root0 9 (by norm_num),
    noteIntervalWrap_root0 11 (by norm_num)]
  norm_num [scaleWeight, List.getD]

theorem patternWeights_cex : patternWeights [0, 2, 4, 5, 7, 9, 11] 0 = 12.3 := by
  unfold patternWeights
  rw [scale_filter_in_cex]
  simp only [List.map_cons, List.map_nil, List.sum_cons, List.sum_nil]
  rw [noteIntervalWrap_root0 0 (by norm_num), noteIntervalWrap_root0 2 (by norm_num),
    noteIntervalWrap_root0 4 (by norm_num), noteIntervalWrap_root0 5 (by norm_num),
    noteIntervalWrap_root0 7 (by norm_num), noteIntervalWrap_root0 9 (by norm_num),
    noteIntervalWrap_root0 11 (by norm_num)]
  norm_num [scaleWeight]

theorem outScaleEnergy_cex :
    outScaleEnergy [1, 1, 0, 0, 0, 0, 0, 0, 0, 0, 0, 0] [0, 2, 4, 5, 7, 9, 11] 0 = 2 := by
  unfold outScaleEnergy
  rw [scale_filter_out_cex]
  norm_num [List.getD]

/-- C4 counterexample: at chroma `[1,1,0,…,0]`, C-Major pattern, root 0 the
code computes `(fit·penalty)^0.8 = (125/726)^0.8` while the claim's formula
gives `fit^0.8 · penalty = (25/66)^0.8 · (5/11)`, and these differ (the
penalty is in `(0,1)`, so applying the exponent to the product strictly
increases the value). -/
theorem scale_fit_claim_counterexample :
    calculate_scale_fit_corrected [1, 1, 0, 0, 0, 0, 0, 0, 0, 0, 0, 0] [0, 2, 4, 5, 7, 9, 11] 0 ≠
      scale_fit_claim [1, 1, 0, 0, 0, 0, 0, 0, 0, 0, 0, 0] [0, 2, 4, 5, 7, 9, 11] 0 := by
  have hcode : calculate_scale_fit_corrected [1, 1, 0, 0, 0, 0, 0, 0, 0, 0, 0, 0]
      [0, 2, 4, 5, 7, 9, 11] 0 = ((125 / 726 : ℚ) : ℝ) ^ (0.8 : ℝ) := by
    unfold calculate_scale_fit_corrected
    rw [inScaleEnergy_cex, patternWeights_cex, outScaleEnergy_cex]
    rw [if_neg (by norm_num)]
    dsimp only
    rw [if_neg (by norm_num)]
    congr 1
    exact_mod_cast (show ((3 : ℚ) / 12.3 / (3 / 12.3 + 2 / (12 - (([0, 2, 4, 5, 7, 9, 11] :
      List ℕ).length : ℚ))) * (1 / (1 + 2 / (12 - (([0, 2, 4, 5, 7, 9, 11] :
      List ℕ).length : ℚ)) * 3))) = 125 / 726 by norm_num)
  have hclaim : scale_fit_claim [1, 1, 0, 0, 0, 0, 0, 0, 0, 0, 0, 0]
      [0, 2, 4, 5, 7, 9, 11] 0 =
      ((25 / 66 : ℚ) : ℝ) ^ (0.8 : ℝ) * ((5 / 11 : ℚ) : ℝ) := by
    unfold scale_fit_claim
    rw [inScaleEnergy_cex, patternWeights_cex, outScaleEnergy_cex, scale_filter_out_cex]
    dsimp only
    congr 1
    · congr 1
      exact_mod_cast (show ((3 : ℚ) / 12.3 / (3 / 12.3 + 2 / (([1, 3, 6, 8, 10] :
        List ℕ).length : ℚ))) = 25 / 66 by norm_num)
    · exact_mod_cast (show ((1 : ℚ) / (1 + 2 / (([1, 3, 6, 8, 10] :
        List ℕ).length : ℚ) * 3)) = 5 / 11 by norm_num)
  rw [hcode, hclaim]
  have h5 : ((5 / 11 : ℚ) : ℝ) < ((5 / 11 : ℚ) : ℝ) ^ (0.8 : ℝ) := by
    have h := @Real.rpow_lt_rpow_of_exponent_gt ((5 / 11 : ℚ) : ℝ) 1 0.8
      (by norm_num) (by norm_num) (by norm_num)
    simpa using h
  have hpos : (0 : ℝ) < ((25 / 66 : ℚ) : ℝ) ^ (0.8 : ℝ) :=
    Real.rpow_pos_of_pos (by norm_num) _
  have hlt : ((25 / 66 : ℚ) : ℝ) ^ (0.8 : ℝ) * ((5 / 11 : ℚ) : ℝ) <
      ((125 / 726 : ℚ) : ℝ) ^ (0.8 : ℝ) := by
    have hmul : ((25 / 66 : ℚ) : ℝ) * ((5 / 11 : ℚ) : ℝ) = ((125 / 726 : ℚ) : ℝ) := by
      exact_mod_cast (show (25 / 66 : ℚ) * (5 / 11) = 125 / 726 by norm_num)
    calc ((25 / 66 : ℚ) : ℝ) ^ (0.8 : ℝ) * ((5 / 11 : ℚ) : ℝ)
        < ((25 / 66 : ℚ) : ℝ) ^ (0.8 : ℝ) * ((5 / 11 : ℚ) : ℝ) ^ (0.8 : ℝ) :=
          mul_lt_mul_of_pos_left h5 hpos
      _ = (((25 / 66 : ℚ) : ℝ) * ((5 / 11 : ℚ) : ℝ)) ^ (0.8 : ℝ) := by
          rw [← Real.mul_rpow (by norm_num) (by norm_num)]
      _ = ((125 / 726 : ℚ) : ℝ) ^ (0.8 : ℝ) := by rw [hmul]
  exact ne_of_gt hlt

theorem range12_map_interval_perm (root : ℕ) (hroot : root < 12) :
    List.Perm ((List.range 12).map (fun i => (i + 12 - root) % 12)) (List.range 12) := by
  refine (List.perm_ext_iff_of_nodup ?_ (List.nodup_range 12)).mpr ?_
  · refine List.Nodup.map_on ?_ (List.nodup_range 12)
    intro x hx y hy hxy
    have hx' := List.mem_range.mp hx
    have hy' := List.mem_range.mp hy
    omega
  · intro v
    simp only [List.mem_map, List.mem_range]
    constructor
    · rintro ⟨i, hi, rfl⟩
      omega
    · intro hv
      exact ⟨(v + root) % 12, by omega, by omega⟩

theorem count_in_filter (pattern : List ℕ) (root : ℕ) (hroot : root < 12)
    (hnd : pattern.Nodup) (hlt : ∀ x ∈ pattern, x < 12) :
    ((List.range 12).filter
      (fun i => decide (noteIntervalWrap 32 i root ∈ pattern))).length = pattern.length := by
  have hcongr : ∀ i ∈ List.range 12,
      decide (noteIntervalWrap 32 i root ∈ pattern) =
        decide ((i + 12 - root) % 12 ∈ pattern) := by
    intro i hi
    rw [(noteIntervalWrap_spec 32 i root (by norm_num) (List.mem_range.mp hi) hroot).1]
  rw [List.filter_congr hcongr, ← List.countP_eq_length_filter]
  have h1 : List.countP (fun i => decide ((i + 12 - root) % 12 ∈ pattern)) (List.range 12) =
      List.countP (fun v => decide (v ∈ pattern))
        ((List.range 12).map (fun i => (i + 12 - root) % 12)) := by
    rw [List.countP_map]
    rfl
  rw [h1, (range12_map_interval_perm root hroot).countP_eq,
    List.countP_eq_length_filter]
  have hperm2 : List.Perm ((List.range 12).filter (fun v => decide (v ∈ pattern))) pattern := by
    refine (List.perm_ext_iff_of_nodup (List.Nodup.filter _ (List.nodup_range 12)) hnd).mpr ?_
    intro v
    simp only [List.mem_filter, List.mem_range, decide_eq_true_eq]
    constructor
    · rintro ⟨_, hv⟩
      exact hv
    · intro hv
      exact ⟨hlt v hv, hv⟩
  exact hperm2.length_eq

theorem length_filter_add_length_filter_not {α : Type} (l : List α) (p : α → Prop)
    [DecidablePred p] :
    (l.filter (fun a => decide (p a))).length + (l.filter (fun a => decide (¬ p a))).length =
      l.length := by
  induction l with
  | nil => rfl
  | cons a l ih =>
    simp only [List.filter_cons]
    by_cases h : p a
    · rw [if_pos (by simpa using h), if_neg (by simpa using h)]
      simp only [List.length_cons]
      omega
    · rw [if_neg (by simpa using h), if_pos (by simpa using h)]
      simp only [List.length_cons]
      omega

theorem count_out_filter (pattern : List ℕ) (root : ℕ) (hroot : root < 12)
    (hnd : pattern.Nodup) (hlt : ∀ x ∈ pattern, x < 12) :
    ((List.range 12).filter
      (fun i => decide (¬ noteIntervalWrap 32 i root ∈ pattern))).length =
      12 - pattern.length := by
  have hin := count_in_filter pattern root hroot hnd hlt
  have hsplit := length_filter_add_length_filter_not (List.range 12)
    (fun i => noteIntervalWrap 32 i root ∈ pattern)
  rw [List.length_range] at hsplit
  omega

theorem pattern_length_le_twelve (pattern : List ℕ) (root : ℕ) (hroot : root < 12)
    (hnd : pattern.Nodup) (hlt : ∀ x ∈ pattern, x < 12) : pattern.length ≤ 12 := by
  have hin := count_in_filter pattern root hroot hnd hlt
  have hfl := List.length_filter_le
    (fun i => decide (noteIntervalWrap 32 i root ∈ pattern)) (List.range 12)
  rw [List.length_range] at hfl
  omega

theorem scale_fit_code_eq_amended (chroma : List ℚ) (pattern : List ℕ) (root : ℕ)
    (hroot : root < 12) (hnd : pattern.Nodup) (hlt : ∀ x ∈ pattern, x < 12)
    (hpw : patternWeights pattern root ≠ 0)
    (htot : inScaleEnergy chroma pattern root / patternWeights pattern root +
      outScaleEnergy chroma pattern root / (12 - (pattern.length : ℚ)) ≠ 0) :
    calculate_scale_fit_corrected chroma pattern root =
      scale_fit_amended chroma pattern root := by
  have hout := count_out_filter pattern root hroot hnd hlt
  have hlen := pattern_length_le_twelve pattern root hroot hnd hlt
  have hcast : ((12 - pattern.length : ℕ) : ℚ) = 12 - (pattern.length : ℚ) := by
    rw [Nat.cast_sub hlen]
    norm_num
  unfold calculate_scale_fit_corrected scale_fit_amended
  rw [hout]
  dsimp only
  rw [hcast, if_neg hpw, if_neg htot]

theorem analyze_scales_props (chroma : List ℚ) :
    (analyze_scales chroma).length ≤ 8 ∧
    List.Pairwise (fun a b : String × ℝ => b.2 ≤ a.2) (analyze_scales chroma) ∧
    ∀ m ∈ analyze_scales chroma, (0.10 : ℝ) < m.2 := by
  unfold analyze_scales
  dsimp only
  refine ⟨List.length_take_le _ _, ?_, ?_⟩
  · have hs := @List.sorted_mergeSort (String × ℝ)
      (fun a b => decide (b.2 ≤ a.2))
      (by
        intro a b c h1 h2
        simp only [decide_eq_true_eq] at *
        exact le_trans h2 h1)
      (by
        intro a b
        simp only [Bool.or_eq_true, decide_eq_true_eq]
        exact le_total b.2 a.2)
      (commonPatterns.flatMap (fun pn =>
        (List.range 12).filterMap (fun root =>
          if (0.10 : ℝ) < calculate_scale_fit_corrected chroma pn.1 root then
            some (NOTE_NAMES.getD root "" ++ " " ++ pn.2,
              calculate_scale_fit_corrected chroma pn.1 root)
          else none)))
    have hp : List.Pairwise (fun a b : String × ℝ => b.2 ≤ a.2)
        ((commonPatterns.flatMap (fun pn =>
          (List.range 12).filterMap (fun root =>
            if (0.10 : ℝ) < calculate_scale_fit_corrected chroma pn.1 root then
              some (NOTE_NAMES.getD root "" ++ " " ++ pn.2,
                calculate_scale_fit_corrected chroma pn.1 root)
            else none))).mergeSort (fun a b => decide (b.2 ≤ a.2))) :=
      hs.imp (fun h => of_decide_eq_true h)
    exact hp.sublist (List.take_sublist _ _)
  · intro m hm
    have hm2 := List.mem_mergeSort.mp (List.mem_of_mem_take hm)
    rcases List.mem_flatMap.mp hm2 with ⟨pn, hpn, hmem⟩
    rcases List.mem_filterMap.mp hmem with ⟨root, hrootmem, heq⟩
    by_cases hc : (0.10 : ℝ) < calculate_scale_fit_corrected chroma pn.1 root
    · rw [if_pos hc] at heq
      cases heq
      exact hc
    · rw [if_neg hc] at heq
      simp at heq

/-- C4 amended: the strength is
`((inScale/(inScale+outScale)) · 1/(1+outScale·3))^0.8` — the 0.8 exponent
applies to the whole product, not to the ratio alone; the normalizations are
as claimed (in-scale by total pattern weight, out-of-scale by the number of
out-of-scale bins).  Matches with strength above 0.10 are kept, the result is
sorted in descending strength order, and at most 8 are returned. -/
theorem scale_fit_formula_and_ranking :
    (∀ (chroma : List ℚ) (pattern : List ℕ) (root : ℕ),
      root < 12 → pattern.Nodup → (∀ x ∈ pattern, x < 12) →
      patternWeights pattern root ≠ 0 →
      inScaleEnergy chroma pattern root / patternWeights pattern root +
        outScaleEnergy chroma pattern root / (12 - (pattern.length : ℚ)) ≠ 0 →
      calculate_scale_fit_corrected chroma pattern root =
        scale_fit_amended chroma pattern root) ∧
    (∀ chroma : List ℚ,
      (analyze_scales chroma).length ≤ 8 ∧
      List.Pairwise (fun a b : String × ℝ => b.2 ≤ a.2) (analyze_scales chroma) ∧
      ∀ m ∈ analyze_scales chroma, (0.10 : ℝ) < m.2) :=
  ⟨fun chroma pattern root h1 h2 h3 h4 h5 =>
    scale_fit_code_eq_amended chroma pattern root h1 h2 h3 h4 h5,
   analyze_scales_props⟩

/-- Witness for C4's amended theorem at chroma `[1,1,0,…,0]`, C-Major, root 0. -/
theorem scale_fit_formula_and_ranking_witness :
    calculate_scale_fit_corrected [1, 1, 0, 0, 0, 0, 0, 0, 0, 0, 0, 0] [0, 2, 4, 5, 7, 9, 11] 0 =
      scale_fit_amended [1, 1, 0, 0, 0, 0, 0, 0, 0, 0, 0, 0] [0, 2, 4, 5, 7, 9, 11] 0 ∧
    (analyze_scales [1, 1, 0, 0, 0, 0, 0, 0, 0, 0, 0, 0]).length ≤ 8 :=
  ⟨scale_fit_formula_and_ranking.1 _ _ 0 (by norm_num) (by decide) (by decide)
      (by rw [patternWeights_cex]; norm_num)
      (by rw [inScaleEnergy_cex, patternWeights_cex, outScaleEnergy_cex]; norm_num),
   (scale_fit_formula_and_ranking.2 _).1⟩

theorem tmod_twelve_bounds (r : ℤ) : -12 < r.tmod 12 ∧ r.tmod 12 < 12 := by
  cases r with
  | ofNat m =>
    have h : Int.tmod (Int.ofNat m) 12 = ((m % 12 : ℕ) : ℤ) := rfl
    rw [h]
    have := Nat.mod_lt m (show 0 < 12 by norm_num)
    omega
  | negSucc m =>
    have h : Int.tmod (Int.negSucc m) 12 = -(((m + 1) % 12 : ℕ) : ℤ) := rfl
    rw [h]
    have := Nat.mod_lt (m + 1) (show 0 < 12 by norm_num)
    omega

theorem freq_to_pitch_class_lt (semi : F32 → F32) (freq : F32) :
    freq_to_pitch_class_precise semi freq < 12 := by
  unfold freq_to_pitch_class_precise
  split
  · norm_num
  · dsimp only
    obtain ⟨h1, h2⟩ := tmod_twelve_bounds (F32.roundToI32 (semi freq))
    split
    · omega
    · omega

theorem hpcpAddHarmonics_f32_length (semi : F32 → F32) (fdivNat : F32 → ℕ → F32)
    (geMinFreq : F32 → Bool) (sq : ℚ → ℚ) (adjustedFreq : F32) (magnitude : ℚ)
    (hpcp : List ℚ) :
    (hpcpAddHarmonics_f32 semi fdivNat geMinFreq sq adjustedFreq magnitude hpcp).length =
      hpcp.length := by
  unfold hpcpAddHarmonics_f32
  generalize (List.range 7).map (· + 2) = hs
  induction hs generalizing hpcp with
  | nil => rfl
  | cons h t ih =>
    rw [List.foldl_cons]
    by_cases hg : geMinFreq (fdivNat adjustedFreq h) = true
    · rw [if_pos hg, ih]
      simp
    · rw [if_neg hg]
      exact ih hpcp

theorem compute_hpcp_frame_f32_length (semi : F32 → F32) (fmulCent : F32 → F32)
    (fdivNat : F32 → ℕ → F32) (geMinFreq : F32 → Bool) (sq : ℚ → ℚ)
    (peaks : List (F32 × ℚ)) :
    (compute_hpcp_frame_f32 semi fmulCent fdivNat geMinFreq sq peaks).length = 12 := by
  unfold compute_hpcp_frame_f32
  dsimp only
  have hfold : ∀ (ps : List (F32 × ℚ)) (acc : List ℚ),
      (ps.foldl (fun (hpcp : List ℚ) peak =>
        let adjustedFreq := fmulCent peak.1
        let fundamentalPc := freq_to_pitch_class_precise semi adjustedFreq
        let hpcp := hpcp.set fundamentalPc (hpcp.getD fundamentalPc 0 + peak.2)
        hpcpAddHarmonics_f32 semi fdivNat geMinFreq sq adjustedFreq peak.2 hpcp) acc).length
        = acc.length := by
    intro ps
    induction ps with
    | nil => intro acc; rfl
    | cons p ps ih =>
      intro acc
      rw [List.foldl_cons, ih]
      rw [hpcpAddHarmonics_f32_length]
      simp
  split
  · rw [List.length_map, hfold]
    simp
  · rw [hfold]
    simp

/-- C9: `freq_to_pitch_class_precise` is total and returns an index `< 12`
for every f32 input — including 0, negatives (the `<= 0` guard), NaN (whose
rounded `as i32` cast is 0) and infinities (which saturate) — and whatever
value the float log computation produces; hence every `hpcp[pitch_class]`
update in `compute_hpcp_frame` is in bounds for the 12-element vector, whose
length is always 12. -/
theorem freq_to_pitch_class_total_in_bounds :
    (∀ (semi : F32 → F32) (freq : F32), freq_to_pitch_class_precise semi freq < 12) ∧
    (∀ (semi : F32 → F32) (fmulCent : F32 → F32) (fdivNat : F32 → ℕ → F32)
        (geMinFreq : F32 → Bool) (sq : ℚ → ℚ) (peaks : List (F32 × ℚ)),
      (compute_hpcp_frame_f32 semi fmulCent fdivNat geMinFreq sq peaks).length = 12) :=
  ⟨freq_to_pitch_class_lt, compute_hpcp_frame_f32_length⟩

/-- C7: both analyses are pure functions of the buffer and the analyzer
configuration; threading the returned state into a second call on the same
buffer yields the identical result, and the state is returned unchanged —
no hidden state carries over between calls. -/
theorem analysis_deterministic_stateless (lg : ℚ → ℚ) (F : FloatFuns)
    (la : LoudnessAnalyzer) (ma : MusicAnalyzer) (pcm : List ℚ) :
    (la.analyzeS lg pcm).2 = la ∧
    ((la.analyzeS lg pcm).2.analyzeS lg pcm).1 = (la.analyzeS lg pcm).1 ∧
    (ma.analyze_musicS F pcm).2 = ma ∧
    ((ma.analyze_musicS F pcm).2.analyze_musicS F pcm).1 = (ma.analyze_musicS F pcm).1 :=
  ⟨rfl, rfl, rfl, rfl⟩

end Lufalyze
